import Mathlib

/-!
Verification development for the bandwidthmon repository (Rust sources
src/bandwidthmon.rs, src/bandwidthmon2.rs, src/bandwidthmon3.rs).

Shallow embedding conventions:
* u64 counters are modelled as Nat; Rust saturating_sub on u64 coincides with
  truncated Nat subtraction.
* f64 values flowing through the sampler and the statistics are modelled as
  exact rationals (the claims under study concern the algebraic structure of
  the computations, not rounding).
* Instant timestamps are modelled as rational numbers of seconds;
  duration_since(prev).as_secs_f64() becomes subtraction.
* For the chart renderer (bandwidthmon2.rs render_chart), f64 values are
  modelled by the type F below, which keeps the NaN and infinity behaviour of
  Rust f64::min / f64::max (the argument that is NaN is discarded).
* Rust strings are modelled as List Char; str::to_lowercase becomes a
  character-wise Char.toLower map (interface names are ASCII).
* VecDeque::capacity() is modelled as the configured history size given to
  VecDeque::with_capacity.
-/

namespace Bandwidthmon

/-! ### String helpers (Rust str::contains, join, to_lowercase) -/

/-- Model of Rust slice.starts_with / str prefix test on character lists. -/
def leadsWith : List Char → List Char → Bool
  | [], _ => true
  | _ :: _, [] => false
  | a :: as, b :: bs => a == b && leadsWith as bs

/-- Model of Rust str::contains for a needle inside a haystack. -/
def occursIn (needle : List Char) : List Char → Bool
  | [] => needle.isEmpty
  | c :: t => leadsWith needle (c :: t) || occursIn needle t

/-- Model of Vec::join(sep) on string lists. -/
def joinSep (sep : List Char) : List (List Char) → List Char
  | [] => []
  | [x] => x
  | x :: xs => x ++ sep ++ joinSep sep xs

/-- Case-insensitive substring test:
Rust name.to_lowercase().contains(&pattern.to_lowercase()). -/
def lowerContains (name pattern : List Char) : Bool :=
  occursIn (pattern.map Char.toLower) (name.map Char.toLower)

/-! ### Wildcard matching (bandwidthmon3.rs find_matching_interface)

The source rewrites the wildcard pattern by escaping only the three
characters . ( ) and replacing * with .* and ? with ., and hands the
anchored case-insensitive result (?i)^...$ to Regex::new of the external
regex crate (bandwidthmon3.rs lines 236-244).  Two consequences shape the
model:
* compilation can fail: for example the pattern [* rewrites to (?i)^[.*$,
  an unclosed character class, and the source surfaces the failure as the
  error "Invalid pattern: {e}";
* pattern characters other than . ( ) * ? keep whatever regex meaning they
  have, so [ ] { } | + \ ^ $ reach the engine as live regex syntax
  ([eth]* compiles to a character class followed by .*).
The external engine is therefore a parameter of the resolver model below
(a function from the raw pattern to either a compile-error text or a
matcher on interface names).  globMatch is the matcher the compiled regex
denotes on the safe fragment of wildcard patterns, those none of whose
characters is one of [ ] { } | + \ ^ $ : on that fragment compilation
always succeeds, * matches zero or more non-newline characters (regex .*),
? matches exactly one non-newline character (regex .), and every other
character matches itself case-insensitively.  The fuel argument of the
matcher only makes the recursion structural; it is large enough that it is
never exhausted on the initial call. -/

/-- Fuel-indexed anchored glob matcher; fuel strictly exceeds
2 * pattern length + string length on every reachable call.  The star and
the single-character wildcard refuse the newline character, as the regex
dot they were compiled to does. -/
def globMatchAux : ℕ → List Char → List Char → Bool
  | 0, _, _ => false
  | _ + 1, [], s => s.isEmpty
  | fuel + 1, p :: ps, s =>
    if p = '*' then
      globMatchAux fuel ps s ||
        (match s with
         | [] => false
         | c :: s1 => c != '\n' && globMatchAux fuel (p :: ps) s1)
    else
      match s with
      | [] => false
      | c :: s1 =>
        ((p == '?' && c != '\n') || Char.toLower p == Char.toLower c) &&
          globMatchAux fuel ps s1

/-- Anchored case-insensitive full match denoted by the compiled wildcard
pattern on the safe fragment (no character of the pattern is one of
[ ] { } | + \ ^ $). -/
def globMatch (p s : List Char) : Bool :=
  globMatchAux (2 * p.length + s.length + 1) p s

/-- Wildcard detection: pattern.contains('*') || pattern.contains('?'). -/
def hasWildcard (pattern : List Char) : Bool :=
  pattern.contains '*' || pattern.contains '?'

/-- Behaviour of Regex::new on the rewritten pattern, restricted to the safe
fragment: there compilation always succeeds and the compiled matcher is the
anchored case-insensitive glob.  Theorems take the engine as a parameter;
this instance is only ever applied to safe patterns (such as wl*), where it
agrees with the real engine. -/
def globEngine (pattern : List Char) : Except (List Char) (List Char → Bool) :=
  Except.ok (fun s => globMatch pattern s)

/-- Behaviour of Regex::new at the concrete pattern [* : the rewrite turns
it into (?i)^[.*$, whose unclosed character class Regex::new rejects, so
compilation returns a parse-error text (abbreviated here) that mentions no
interface name.  On other patterns this instance falls back to the safe
fragment and is not relied upon. -/
def bracketStarEngine (pattern : List Char) : Except (List Char) (List Char → Bool) :=
  if pattern = "[*".data then
    Except.error ("regex parse error (unclosed character class)".data)
  else Except.ok (fun s => globMatch pattern s)

/-! ### Interface resolution -/

/-- ASCII apostrophe used in the error messages of the source. -/
def quoteChar : Char := Char.ofNat 39

/-- Error text of resolve_interface (bandwidthmon.rs lines 253-259):
"No interface matches '{pattern}'. Available interfaces:\n{list joined by newline}". -/
def resolveNoMatchMsg (pattern : List Char) (interfaces : List (List Char)) : List Char :=
  "No interface matches ".data ++ [quoteChar] ++ pattern ++ [quoteChar] ++
    ". Available interfaces:\n".data ++ joinSep ("\n".data) interfaces

/-- Error text of find_matching_interface (bandwidthmon3.rs line 262):
"No interface matching '{pattern}' found. Available: {list joined by comma}". -/
def findNoMatchMsg (pattern : List Char) (interfaces : List (List Char)) : List Char :=
  "No interface matching ".data ++ [quoteChar] ++ pattern ++ [quoteChar] ++
    " found. Available: ".data ++ joinSep (", ".data) interfaces

/-- Model of resolve_interface (bandwidthmon.rs lines 236-270 and the
identical bandwidthmon2.rs lines 234-268): exact match first, then
case-insensitive substring match; one match is returned directly, several
matches are resolved by min_by_key(|s| s.len()), which keeps the first
element of minimal length. -/
def resolve_interface (interfaces : List (List Char)) (pattern : List Char) :
    Except (List Char) (List Char) :=
  if interfaces.any (fun name => name == pattern) then Except.ok pattern
  else
    let matchesL := interfaces.filter (fun name => lowerContains name pattern)
    match matchesL with
    | [] => Except.error (resolveNoMatchMsg pattern interfaces)
    | m :: ms =>
      if ms = [] then Except.ok m
      else Except.ok (ms.foldl (fun acc y => if y.length < acc.length then y else acc) m)

/-- Model of find_matching_interface (bandwidthmon3.rs lines 219-263):
empty interface list is an error, empty pattern selects the first
interface; a wildcard pattern is handed to the external regex engine
(the compile parameter, standing for the rewrite plus Regex::new), whose
failure is surfaced as the Invalid pattern error exactly as the map_err of
the source does, and whose compiled matcher selects the first full match;
otherwise the first case-insensitive substring match wins. -/
def find_matching_interface
    (compile : List Char → Except (List Char) (List Char → Bool))
    (interfaces : List (List Char)) (pattern : List Char) :
    Except (List Char) (List Char) :=
  match interfaces with
  | [] => Except.error ("No network interfaces found".data)
  | first :: _ =>
    if pattern = [] then Except.ok first
    else if hasWildcard pattern then
      match compile pattern with
      | Except.error e => Except.error ("Invalid pattern: ".data ++ e)
      | Except.ok re =>
        match interfaces.find? (fun iface => re iface) with
        | some iface => Except.ok iface
        | none => Except.error (findNoMatchMsg pattern interfaces)
    else
      match interfaces.find? (fun iface => lowerContains iface pattern) with
      | some iface => Except.ok iface
      | none => Except.error (findNoMatchMsg pattern interfaces)

/-! ### The sampler (bandwidthmon.rs NetworkMonitor, identical in
bandwidthmon2.rs) -/

/-- Per-tick result of NetworkMonitor::update (struct BandwidthStats). -/
structure BandwidthStats where
  download_bps : ℚ
  upload_bps : ℚ
  total_rx : ℕ
  total_tx : ℕ
  deriving DecidableEq

/-- Mutable state of struct NetworkMonitor (bandwidthmon.rs lines 81-95).
The sysinfo Networks handle and the interface name are external inputs of
update and are not part of the modelled state; start_time is only read for
display.  capacity models VecDeque::capacity() of both history deques, which
were created with VecDeque::with_capacity(history_size). -/
structure NetworkMonitor where
  history_dl : List ℚ
  history_ul : List ℚ
  capacity : ℕ
  prev_rx : ℕ
  prev_tx : ℕ
  prev_time : ℚ
  peak_dl : ℚ
  peak_ul : ℚ
  avg_dl : ℚ
  avg_ul : ℚ
  sample_count : ℕ
  deriving DecidableEq

/-- History insertion of NetworkMonitor::update (bandwidthmon.rs lines
166-174): if len() >= capacity() the single front element is popped, then the
new value is pushed at the back (head of the list = oldest sample). -/
def pushHistory (cap : ℕ) (h : List ℚ) (v : ℚ) : List ℚ :=
  (if h.length ≥ cap then h.drop 1 else h) ++ [v]

/-- State of NetworkMonitor::new (bandwidthmon.rs lines 98-127): empty
histories, counters primed from the first reading, statistics zeroed. -/
def NetworkMonitor.new (prev_rx prev_tx : ℕ) (now : ℚ) (history_size : ℕ) :
    NetworkMonitor :=
  ⟨[], [], history_size, prev_rx, prev_tx, now, 0, 0, 0, 0, 0⟩

/-- Model of NetworkMonitor::update (bandwidthmon.rs lines 129-190) after a
successful counter read (cur_rx, cur_tx) at time cur_time.  Returns the new
monitor state together with the BandwidthStats value of the Ok result. -/
def NetworkMonitor.update (m : NetworkMonitor) (cur_rx cur_tx : ℕ) (cur_time : ℚ) :
    NetworkMonitor × BandwidthStats :=
  let elapsed := cur_time - m.prev_time
  if elapsed < 1 / 1000 then
    (m, ⟨0, 0, cur_rx, cur_tx⟩)
  else
    let dl_bytes := cur_rx - m.prev_rx
    let ul_bytes := cur_tx - m.prev_tx
    let dl_bps := (dl_bytes : ℚ) / elapsed
    let ul_bps := (ul_bytes : ℚ) / elapsed
    let sample_count := m.sample_count + 1
    ({ m with
        history_dl := pushHistory m.capacity m.history_dl dl_bps,
        history_ul := pushHistory m.capacity m.history_ul ul_bps,
        prev_rx := cur_rx, prev_tx := cur_tx, prev_time := cur_time,
        peak_dl := max m.peak_dl dl_bps,
        peak_ul := max m.peak_ul ul_bps,
        avg_dl := m.avg_dl + (dl_bps - m.avg_dl) / (sample_count : ℚ),
        avg_ul := m.avg_ul + (ul_bps - m.avg_ul) / (sample_count : ℚ),
        sample_count := sample_count },
     ⟨dl_bps, ul_bps, cur_rx, cur_tx⟩)

/-! ### The per-tick rate computation of bandwidthmon3.rs -/

/-- Counter snapshot struct NetStats (bandwidthmon3.rs lines 133-137). -/
structure NetStats where
  rx_bytes : ℕ
  tx_bytes : ℕ
  deriving DecidableEq

/-- Rate computation of the bandwidthmon3.rs main loop (lines 670-674):
saturating counter difference divided by the elapsed seconds, with no guard
on the size of elapsed. -/
def tickRates (prev cur : NetStats) (elapsed : ℚ) : ℚ × ℚ :=
  let rx_diff := ((cur.rx_bytes - prev.rx_bytes : ℕ) : ℚ)
  let tx_diff := ((cur.tx_bytes - prev.tx_bytes : ℕ) : ℚ)
  (rx_diff / elapsed, tx_diff / elapsed)

/-! ### Running statistics -/

/-- Per-direction view of the running statistics of NetworkMonitor
(peak_dl / avg_dl / sample_count and their upload twins). -/
structure RunningStats where
  peak : ℚ
  mean : ℚ
  count : ℕ
  deriving DecidableEq

/-- One observation step, mirroring bandwidthmon.rs lines 176-182 for one
direction: peak = peak.max(value); sample_count += 1;
avg += (value - avg) / sample_count. -/
def observe (s : RunningStats) (v : ℚ) : RunningStats :=
  let count := s.count + 1
  ⟨max s.peak v, s.mean + (v - s.mean) / (count : ℚ), count⟩

/-- Statistics after observing a whole sample sequence from the initial
zeroed state of NetworkMonitor::new. -/
def statsFold (vs : List ℚ) : RunningStats :=
  vs.foldl observe ⟨0, 0, 0⟩

/-- Model of Stats::avg_download (bandwidthmon3.rs lines 94-100): 0 for an
empty rate list, otherwise sum divided by length. -/
def avg_download (rates : List ℚ) : ℚ :=
  if rates = [] then 0 else rates.sum / (rates.length : ℚ)

/-! ### The chart renderer (bandwidthmon2.rs render_chart, lines 317-426)

The canvas is modelled as a height x width grid of block levels 0..8, where
level i stands for the character BLOCKS[i] of the source
([' ', partial blocks, full block]); 0 is the blank cell and 8 the solid
block.  The textual assembly that follows the canvas loop in the source
(axis labels and ANSI colouring of each row) is pure presentation of the
finished canvas and is not modelled; the three outcomes of the function are
kept: the empty string for degenerate input, the literal "Invalid data"
for a non-finite min/max, and the rasterized grid otherwise. -/

/-- f64 values reaching the renderer: NaN, the two infinities, or a finite
value (modelled exactly as a rational). -/
inductive F where
  | nan : F
  | inf : F
  | ninf : F
  | fin : ℚ → F
  deriving DecidableEq

/-- Value test matching f64::is_nan. -/
def F.isNan : F → Bool
  | F.nan => true
  | _ => false

/-- Value test matching f64::is_finite. -/
def F.isFinite : F → Bool
  | F.fin _ => true
  | _ => false

/-- Numeric value of a finite F (junk 0 on the non-finite constructors, which
the renderer only reaches behind an isFinite test). -/
def F.toQ : F → ℚ
  | F.fin q => q
  | _ => 0

/-- Rust f64::min: if one argument is NaN the other argument is returned. -/
def fmin : F → F → F
  | F.nan, b => b
  | a, F.nan => a
  | F.ninf, _ => F.ninf
  | _, F.ninf => F.ninf
  | F.inf, b => b
  | a, F.inf => a
  | F.fin a, F.fin b => F.fin (min a b)

/-- Rust f64::max: if one argument is NaN the other argument is returned. -/
def fmax : F → F → F
  | F.nan, b => b
  | a, F.nan => a
  | F.inf, _ => F.inf
  | _, F.inf => F.inf
  | F.ninf, b => b
  | a, F.ninf => a
  | F.fin a, F.fin b => F.fin (max a b)

/-- f64::EPSILON = 2^-52, the threshold of the flat-range fallback. -/
def eps : ℚ := 1 / 2 ^ 52

/-- Overall result of render_chart: the empty string, the "Invalid data"
string, or a rasterized canvas. -/
inductive ChartResult where
  | empty : ChartResult
  | invalidData : ChartResult
  | grid : List (List ℕ) → ChartResult
  deriving DecidableEq

/-- Write canvas[y][x] := v (the source only indexes in bounds, where
List.set is the plain assignment). -/
def setCell (canvas : List (List ℕ)) (y x v : ℕ) : List (List ℕ) :=
  canvas.set y ((canvas.getD y []).set x v)

/-- Read canvas[y][x]. -/
def getCell (canvas : List (List ℕ)) (y x : ℕ) : ℕ :=
  (canvas.getD y []).getD x 0

/-- Canvas update for one column of render_chart (bandwidthmon2.rs lines
354-385): non-finite values are skipped; a finite value is normalized
against min_val and range, the solid block is drawn from floor(y) down to
the bottom row, and a partial gradient block may be placed one row above.
The float-to-usize casts of the source saturate below at 0, hence the
Int.toNat conversions. -/
def plotColumn (height : ℕ) (min_val range : ℚ) (canvas : List (List ℕ))
    (x : ℕ) (value : F) : List (List ℕ) :=
  match value with
  | F.fin v =>
    let normalized := (v - min_val) / range
    let y_float := (1 - normalized) * (height : ℚ)
    let y_int := (⌊y_float⌋).toNat
    let y_frac := y_float - (⌊y_float⌋ : ℚ)
    let cv1 := if y_int < height then setCell canvas y_int x 8 else canvas
    let cv2 := (List.range' (y_int + 1) (height - (y_int + 1))).foldl
      (fun c y => setCell c y x 8) cv1
    if y_int > 0 ∧ y_frac > 1 / 10 then
      let prev_y := y_int - 1
      if getCell cv2 prev_y x = 0 then
        let block_idx := (⌊(1 - y_frac) * 8⌋).toNat
        setCell cv2 prev_y x (min block_idx 8)
      else cv2
    else cv2
  | _ => canvas

/-- Model of render_chart (bandwidthmon2.rs lines 317-426) producing the
rasterized canvas. -/
def render_chart (data : List F) (height width : ℕ) : ChartResult :=
  if data = [] ∨ height = 0 ∨ width = 0 then ChartResult.empty
  else
    let plot_data := data.drop (data.length - width)
    if plot_data = [] then ChartResult.empty
    else
      let min_val := plot_data.foldl fmin F.inf
      let max_val := plot_data.foldl fmax F.ninf
      if ¬ (min_val.isFinite = true ∧ max_val.isFinite = true) then
        ChartResult.invalidData
      else
        let minq := min_val.toQ
        let maxq := max_val.toQ
        let range := if |maxq - minq| < eps then 1 else maxq - minq
        let canvas := List.replicate height (List.replicate width 0)
        ChartResult.grid
          (plot_data.enum.foldl
            (fun cv p => plotColumn height minq range cv p.1 p.2) canvas)

/-- Bottom row of a rendered grid (empty for the non-grid outcomes). -/
def bottomRow : ChartResult → List ℕ
  | ChartResult.grid rows => rows.getLastD []
  | _ => []

deriving instance DecidableEq for Except

/-! ### Concrete states used by the witnesses -/

/-- A monitor state with capacity 3, previous counters (10, 10) and previous
timestamp 0, as produced by NetworkMonitor.new 10 10 0 3. -/
def monA : NetworkMonitor := NetworkMonitor.new 10 10 0 3

/-! ### C1: exact saturating rate computation -/

/-- C1: for every pair of counter snapshots with elapsed time of at least
one millisecond, both NetworkMonitor::update (bandwidthmon.rs) and the
bandwidthmon3.rs main-loop tick compute each rate as the saturating counter
difference divided by the elapsed seconds: the rate is exactly
(cur - prev) / elapsed when the counter did not decrease, and exactly 0
(the delta is clamped to 0) on wraparound or reset. -/
theorem rate_saturating_div_exact (m : NetworkMonitor) (rx tx : ℕ) (t : ℚ)
    (h : 1 / 1000 ≤ t - m.prev_time)
    (prev cur : NetStats) (e : ℚ) (_he : 1 / 1000 ≤ e) :
    (m.prev_rx ≤ rx →
      ((m.update rx tx t).2).download_bps =
        ((rx : ℚ) - (m.prev_rx : ℚ)) / (t - m.prev_time))
  ∧ (rx < m.prev_rx → ((m.update rx tx t).2).download_bps = 0)
  ∧ (m.prev_tx ≤ tx →
      ((m.update rx tx t).2).upload_bps =
        ((tx : ℚ) - (m.prev_tx : ℚ)) / (t - m.prev_time))
  ∧ (tx < m.prev_tx → ((m.update rx tx t).2).upload_bps = 0)
  ∧ (prev.rx_bytes ≤ cur.rx_bytes →
      (tickRates prev cur e).1 = ((cur.rx_bytes : ℚ) - (prev.rx_bytes : ℚ)) / e)
  ∧ (cur.rx_bytes < prev.rx_bytes → (tickRates prev cur e).1 = 0)
  ∧ (prev.tx_bytes ≤ cur.tx_bytes →
      (tickRates prev cur e).2 = ((cur.tx_bytes : ℚ) - (prev.tx_bytes : ℚ)) / e)
  ∧ (cur.tx_bytes < prev.tx_bytes → (tickRates prev cur e).2 = 0) := by
  have hupd : (m.update rx tx t).2 =
      ⟨((rx - m.prev_rx : ℕ) : ℚ) / (t - m.prev_time),
       ((tx - m.prev_tx : ℕ) : ℚ) / (t - m.prev_time), rx, tx⟩ := by
    simp only [NetworkMonitor.update, if_neg (not_lt.mpr h)]
  refine ⟨?_, ?_, ?_, ?_, ?_, ?_, ?_, ?_⟩
  · intro hle; rw [hupd]; rw [Nat.cast_sub hle]
  · intro hlt; rw [hupd]
    simp [Nat.sub_eq_zero_of_le (le_of_lt hlt)]
  · intro hle; rw [hupd]; rw [Nat.cast_sub hle]
  · intro hlt; rw [hupd]
    simp [Nat.sub_eq_zero_of_le (le_of_lt hlt)]
  · intro hle; simp only [tickRates]; rw [Nat.cast_sub hle]
  · intro hlt; simp only [tickRates]
    simp [Nat.sub_eq_zero_of_le (le_of_lt hlt)]
  · intro hle; simp only [tickRates]; rw [Nat.cast_sub hle]
  · intro hlt; simp only [tickRates]
    simp [Nat.sub_eq_zero_of_le (le_of_lt hlt)]

/-- Witness for C1 at a concrete input: previous counters (10, 10) at time
0, current counters (30, 5) at time 1 give download 20 B/s and upload 0
(tx wrapped); the bandwidthmon3 tick from (5, 7) to (9, 3) over half a
second gives 8 B/s down and 0 up. -/
theorem rate_saturating_div_exact_witness :
    ((monA.update 30 5 1).2).download_bps = 20
  ∧ ((monA.update 30 5 1).2).upload_bps = 0
  ∧ (tickRates ⟨5, 7⟩ ⟨9, 3⟩ (1 / 2)).1 = 8
  ∧ (tickRates ⟨5, 7⟩ ⟨9, 3⟩ (1 / 2)).2 = 0 := by
  obtain ⟨h1, h2, h3, h4, h5, h6, h7, h8⟩ :=
    rate_saturating_div_exact monA 30 5 1 (by norm_num [monA, NetworkMonitor.new])
      ⟨5, 7⟩ ⟨9, 3⟩ (1 / 2) (by norm_num)
  refine ⟨?_, ?_, ?_, ?_⟩
  · rw [h1 (by norm_num [monA, NetworkMonitor.new])]
    norm_num [monA, NetworkMonitor.new]
  · exact h4 (by norm_num [monA, NetworkMonitor.new])
  · rw [h5 (by norm_num)]; norm_num
  · exact h8 (by norm_num)

/-! ### C4: the sub-millisecond elapsed guard -/

/-- C4 (amended): in bandwidthmon.rs and bandwidthmon2.rs, a call of
NetworkMonitor::update that observes an elapsed time below one millisecond
returns zero rates for both directions as a successful result, without
performing the division (the early return precedes it); the bandwidthmon3.rs
main loop has no such guard and divides by any positive elapsed value. -/
theorem elapsed_guard_zero_rate (m : NetworkMonitor) (rx tx : ℕ) (t : ℚ)
    (h : t - m.prev_time < 1 / 1000) :
    (m.update rx tx t).2 = ⟨0, 0, rx, tx⟩ := by
  simp only [NetworkMonitor.update, if_pos h]

/-- Witness for C4 at a concrete input: an update at the very timestamp of
the previous sample returns the zero-rate result. -/
theorem elapsed_guard_zero_rate_witness :
    (monA.update 99 99 0).2 = ⟨0, 0, 99, 99⟩ :=
  elapsed_guard_zero_rate monA 99 99 0 (by norm_num [monA, NetworkMonitor.new])

/-- Counterexample for C4 as stated: the bandwidthmon3.rs tick (a cited
source of the claim) has no elapsed guard; with elapsed = 1/2000 s and a
1-byte counter advance the call returns 2000 B/s, not a zero rate. -/
theorem elapsed_guard_counterexample :
    (1 : ℚ) / 2000 < 1 / 1000
  ∧ (tickRates ⟨0, 0⟩ ⟨1, 0⟩ (1 / 2000)).1 = 2000
  ∧ ((2000 : ℚ) ≠ 0) := by
  norm_num [tickRates]

/-! ### C8: replacement of the retained previous snapshot -/

/-- C8 (amended): every call of NetworkMonitor::update that passes the
one-millisecond elapsed guard replaces the retained previous snapshot
(prev_rx, prev_tx, prev_time) with the current reading, so the next call
diffs against this tick; a successful call that fails the guard leaves the
snapshot untouched. -/
theorem prev_snapshot_updated (m : NetworkMonitor) (rx tx : ℕ) (t : ℚ)
    (h : 1 / 1000 ≤ t - m.prev_time) :
    (m.update rx tx t).1.prev_rx = rx
  ∧ (m.update rx tx t).1.prev_tx = tx
  ∧ (m.update rx tx t).1.prev_time = t := by
  simp only [NetworkMonitor.update, if_neg (not_lt.mpr h)]
  exact ⟨trivial, trivial, trivial⟩

/-- Witness for C8 at a concrete input. -/
theorem prev_snapshot_updated_witness :
    (monA.update 30 5 1).1.prev_rx = 30
  ∧ (monA.update 30 5 1).1.prev_tx = 5
  ∧ (monA.update 30 5 1).1.prev_time = 1 :=
  prev_snapshot_updated monA 30 5 1 (by norm_num [monA, NetworkMonitor.new])

/-- Counterexample for C8 as stated: an update called with zero elapsed time
returns successfully (the zero-rate result) yet keeps prev_rx = 10 instead
of replacing it with the current reading 5. -/
theorem prev_snapshot_counterexample :
    (monA.update 5 7 0).2 = ⟨0, 0, 5, 7⟩
  ∧ (monA.update 5 7 0).1.prev_rx = 10
  ∧ ((10 : ℕ) ≠ 5) := by
  norm_num [NetworkMonitor.update, monA, NetworkMonitor.new]

/-! ### C10: the early return mutates nothing -/

/-- C10: a call of NetworkMonitor::update that observes an elapsed time
below one millisecond returns before mutating any monitor state: the
histories, peaks, means, sample count and the retained previous snapshot are
all exactly as before the call, so the returned zero-rate sample is recorded
nowhere. -/
theorem early_return_preserves_state (m : NetworkMonitor) (rx tx : ℕ) (t : ℚ)
    (h : t - m.prev_time < 1 / 1000) :
    (m.update rx tx t).1 = m := by
  simp only [NetworkMonitor.update, if_pos h]

/-- Witness for C10 at a concrete input. -/
theorem early_return_preserves_state_witness :
    (monA.update 42 43 0).1 = monA :=
  early_return_preserves_state monA 42 43 0 (by norm_num [monA, NetworkMonitor.new])

/-! ### C2: ring-buffer behaviour of the history -/

/-- History contents after inserting a whole sequence of samples. -/
def pushAll (cap : ℕ) (h : List ℚ) (vs : List ℚ) : List ℚ :=
  vs.foldl (pushHistory cap) h

lemma drop_succ_append {α : Type} (h l : List α) (n : ℕ) (hh : h ≠ []) :
    (h ++ l).drop (n + 1) = (h.drop 1 ++ l).drop n := by
  cases h with
  | nil => exact absurd rfl hh
  | cons a t => simp

lemma pushAll_eq_drop (cap : ℕ) (hcap : 1 ≤ cap) :
    ∀ (vs h : List ℚ), h.length ≤ cap →
      pushAll cap h vs = (h ++ vs).drop (h.length + vs.length - cap) := by
  intro vs
  induction vs with
  | nil =>
    intro h hh
    simp [pushAll, Nat.sub_eq_zero_of_le hh]
  | cons v tl ih =>
    intro h hh
    have hstep : pushAll cap h (v :: tl) = pushAll cap (pushHistory cap h v) tl := rfl
    by_cases hge : h.length ≥ cap
    · have hlen : h.length = cap := le_antisymm hh hge
      have hh0 : h ≠ [] := by
        intro hnil; rw [hnil] at hlen; simp at hlen; omega
      have hpush : pushHistory cap h v = h.drop 1 ++ [v] := by
        simp [pushHistory, hge]
      have hlen1 : (h.drop 1 ++ [v]).length = cap := by
        simp [List.length_drop]; omega
      rw [hstep, hpush, ih _ (le_of_eq hlen1), hlen1, hlen]
      have hidx1 : cap + tl.length - cap = tl.length := by omega
      have hidx2 : cap + (tl.length + 1) - cap = tl.length + 1 := by omega
      rw [hidx1]
      simp only [List.length_cons, hidx2]
      rw [List.append_assoc, List.singleton_append,
        drop_succ_append h (v :: tl) tl.length hh0]
    · have hlt : h.length < cap := lt_of_not_ge hge
      have hpush : pushHistory cap h v = h ++ [v] := by
        simp [pushHistory, hge]
      have hlen1 : (h ++ [v]).length ≤ cap := by simp; omega
      rw [hstep, hpush, ih _ hlen1]
      have hidx : (h ++ [v]).length + tl.length = h.length + (v :: tl).length := by
        simp; omega
      rw [hidx, List.append_assoc, List.singleton_append]

/-- C2 (amended): for every configured history capacity of at least 1, the
code of NetworkMonitor::update keeps each history buffer at no more than
capacity samples, after any sequence of insertions the buffer holds exactly
the most recent samples in arrival order (the drop of the inserted sequence
to its last capacity elements, oldest first), and a full buffer evicts
exactly its single oldest element on insertion. -/
theorem history_ring_buffer (cap : ℕ) (hcap : 1 ≤ cap) (vs : List ℚ) :
    (pushAll cap [] vs).length ≤ cap
  ∧ pushAll cap [] vs = vs.drop (vs.length - cap)
  ∧ ∀ (h : List ℚ) (v : ℚ), h.length = cap → pushHistory cap h v = h.drop 1 ++ [v] := by
  have hmain := pushAll_eq_drop cap hcap vs [] (by simp)
  simp only [List.nil_append, List.length_nil, Nat.zero_add] at hmain
  refine ⟨?_, hmain, ?_⟩
  · rw [hmain, List.length_drop]; omega
  · intro h v hlen
    simp [pushHistory, le_of_eq hlen.symm]

/-- Witness for C2 at a concrete input: capacity 2 and three insertions keep
the last two samples. -/
theorem history_ring_buffer_witness :
    (pushAll 2 [] ([1, 2, 3] : List ℚ)).length ≤ 2
  ∧ pushAll 2 [] ([1, 2, 3] : List ℚ) =
      ([1, 2, 3] : List ℚ).drop (([1, 2, 3] : List ℚ).length - 2) :=
  ⟨(history_ring_buffer 2 (by norm_num) [1, 2, 3]).1,
   (history_ring_buffer 2 (by norm_num) [1, 2, 3]).2.1⟩

/-- Counterexample for C2 as stated: with configured history capacity 0, a
single update tick (elapsed 1 s) leaves one sample in the download history,
exceeding the configured capacity. -/
theorem history_capacity_counterexample :
    ((NetworkMonitor.new 0 0 0 0).update 5 5 1).1.history_dl.length = 1
  ∧ ¬ (((NetworkMonitor.new 0 0 0 0).update 5 5 1).1.history_dl.length ≤ 0) := by
  norm_num [NetworkMonitor.update, NetworkMonitor.new, pushHistory]

/-! ### C5: running mean and peak -/

lemma statsFold_general (vs : List ℚ) :
    ∀ s : RunningStats,
      ((vs.foldl observe s).count = s.count + vs.length)
    ∧ ((vs.foldl observe s).peak = vs.foldl max s.peak)
    ∧ ((vs.foldl observe s).mean * ((s.count : ℚ) + (vs.length : ℚ)) =
        s.mean * (s.count : ℚ) + vs.sum) := by
  induction vs with
  | nil => intro s; simp
  | cons v tl ih =>
    intro s
    obtain ⟨ihc, ihp, ihm⟩ := ih (observe s v)
    have hcount : (observe s v).count = s.count + 1 := rfl
    have hpeak : (observe s v).peak = max s.peak v := rfl
    have hmean : (observe s v).mean =
        s.mean + (v - s.mean) / (((s.count + 1 : ℕ) : ℚ)) := rfl
    refine ⟨?_, ?_, ?_⟩
    · show (tl.foldl observe (observe s v)).count = s.count + (v :: tl).length
      rw [ihc, hcount]; simp; omega
    · show (tl.foldl observe (observe s v)).peak = (v :: tl).foldl max s.peak
      rw [ihp, hpeak]; rfl
    · show (tl.foldl observe (observe s v)).mean *
          ((s.count : ℚ) + ((v :: tl).length : ℚ)) =
        s.mean * (s.count : ℚ) + (v :: tl).sum
      have hne : (((s.count + 1 : ℕ) : ℚ)) ≠ 0 := by positivity
      have hcast : (s.count : ℚ) + ((v :: tl).length : ℚ) =
          (((observe s v).count : ℕ) : ℚ) + (tl.length : ℚ) := by
        rw [hcount]
        simp only [List.length_cons]
        push_cast
        ring_nf
      rw [hcast, ihm, hcount, hmean]
      have hstep : (s.mean + (v - s.mean) / (((s.count + 1 : ℕ) : ℚ))) *
          ((s.count + 1 : ℕ) : ℚ) = s.mean * (s.count : ℚ) + v := by
        field_simp
        ring
      rw [hstep]
      simp [List.sum_cons]
      ring

/-- C5: the running statistics of NetworkMonitor::update follow the
incremental mean formula mean += (value - mean) / n with n the 1-based
observation count, which makes the mean equal to sum / count (hence equal to
Stats::avg_download of bandwidthmon3.rs); the peak is the running maximum
starting from 0; after observing [10, 20, 30] the mean is 20 and the peak is
30; and one update tick past the elapsed guard advances the per-direction
statistics (peak_dl, avg_dl, sample_count) by exactly one observe step on
the returned download rate. -/
theorem running_stats_mean_peak (vs : List ℚ) :
    (statsFold vs).peak = vs.foldl max 0
  ∧ (statsFold vs).count = vs.length
  ∧ (vs ≠ [] → (statsFold vs).mean = vs.sum / (vs.length : ℚ))
  ∧ (vs ≠ [] → (statsFold vs).mean = avg_download vs)
  ∧ (statsFold [10, 20, 30]).mean = 20
  ∧ (statsFold [10, 20, 30]).peak = 30
  ∧ (∀ (m : NetworkMonitor) (rx tx : ℕ) (t : ℚ), 1 / 1000 ≤ t - m.prev_time →
      (m.update rx tx t).1.peak_dl =
        (observe ⟨m.peak_dl, m.avg_dl, m.sample_count⟩
          ((m.update rx tx t).2).download_bps).peak
    ∧ (m.update rx tx t).1.avg_dl =
        (observe ⟨m.peak_dl, m.avg_dl, m.sample_count⟩
          ((m.update rx tx t).2).download_bps).mean
    ∧ (m.update rx tx t).1.sample_count =
        (observe ⟨m.peak_dl, m.avg_dl, m.sample_count⟩
          ((m.update rx tx t).2).download_bps).count) := by
  obtain ⟨hc, hp, hm⟩ := statsFold_general vs ⟨0, 0, 0⟩
  have hmean : vs ≠ [] → (statsFold vs).mean = vs.sum / (vs.length : ℚ) := by
    intro hvs
    have hlen : ((vs.length : ℕ) : ℚ) ≠ 0 :=
      Nat.cast_ne_zero.mpr (Nat.pos_iff_ne_zero.mp (List.length_pos.mpr hvs))
    have := hm
    simp only [Nat.cast_zero, zero_add, zero_mul] at this
    rw [eq_div_iff hlen]
    exact this
  refine ⟨by simpa using hp, by simpa using hc, hmean, ?_, ?_, ?_, ?_⟩
  · intro hvs
    rw [hmean hvs, avg_download, if_neg hvs]
  · norm_num [statsFold, observe]
  · norm_num [statsFold, observe]
  · intro m rx tx t h
    simp only [NetworkMonitor.update, if_neg (not_lt.mpr h), observe]
    exact ⟨trivial, trivial, trivial⟩

/-- Witness for C5 at a concrete input: the sequence [10, 20, 30] and one
concrete update tick. -/
theorem running_stats_mean_peak_witness :
    (statsFold [10, 20, 30]).mean =
      ([10, 20, 30] : List ℚ).sum / ((([10, 20, 30] : List ℚ).length : ℕ) : ℚ)
  ∧ (statsFold [10, 20, 30]).mean = avg_download [10, 20, 30]
  ∧ (monA.update 30 5 1).1.avg_dl =
      (observe ⟨monA.peak_dl, monA.avg_dl, monA.sample_count⟩
        ((monA.update 30 5 1).2).download_bps).mean :=
  ⟨(running_stats_mean_peak [10, 20, 30]).2.2.1 (by simp),
   (running_stats_mean_peak [10, 20, 30]).2.2.2.1 (by simp),
   ((running_stats_mean_peak [10, 20, 30]).2.2.2.2.2.2 monA 30 5 1
     (by norm_num [monA, NetworkMonitor.new])).2.1⟩

/-! ### C9: every no-match error lists the available interfaces -/

lemma occursIn_nil_needle (l : List Char) : occursIn [] l = true := by
  induction l with
  | nil => rfl
  | cons c t ih => simp [occursIn, leadsWith]

lemma leadsWith_self_append (x r : List Char) : leadsWith x (x ++ r) = true := by
  induction x with
  | nil => rfl
  | cons a as ih => simp [leadsWith, ih]

lemma leadsWith_append_of (n : List Char) :
    ∀ (h post : List Char), leadsWith n h = true → leadsWith n (h ++ post) = true := by
  induction n with
  | nil => intro h post _; rfl
  | cons a as ih =>
    intro h post hh
    cases h with
    | nil => simp [leadsWith] at hh
    | cons b bs =>
      simp only [leadsWith, Bool.and_eq_true] at hh
      simp only [List.cons_append, leadsWith, Bool.and_eq_true]
      exact ⟨hh.1, ih bs post hh.2⟩

lemma occursIn_append_left (n : List Char) :
    ∀ (h post : List Char), occursIn n h = true → occursIn n (h ++ post) = true := by
  intro h
  induction h with
  | nil =>
    intro post hh
    simp only [occursIn, List.isEmpty_iff] at hh
    subst hh
    simpa using occursIn_nil_needle post
  | cons c t ih =>
    intro post hh
    simp only [occursIn, Bool.or_eq_true] at hh
    simp only [List.cons_append, occursIn, Bool.or_eq_true]
    rcases hh with h1 | h2
    · exact Or.inl (by simpa using leadsWith_append_of n (c :: t) post h1)
    · exact Or.inr (ih post h2)

lemma occursIn_append_right (n : List Char) (pre h : List Char)
    (hh : occursIn n h = true) : occursIn n (pre ++ h) = true := by
  induction pre with
  | nil => simpa using hh
  | cons c t ih =>
    simp only [List.cons_append, occursIn, Bool.or_eq_true]
    exact Or.inr ih

lemma occursIn_self_append (x r : List Char) : occursIn x (x ++ r) = true := by
  cases x with
  | nil => simpa using occursIn_nil_needle r
  | cons a as =>
    simp only [List.cons_append, occursIn, Bool.or_eq_true]
    exact Or.inl (by simpa using leadsWith_self_append (a :: as) r)

lemma occursIn_joinSep (sep : List Char) :
    ∀ (l : List (List Char)) (a : List Char), a ∈ l →
      occursIn a (joinSep sep l) = true := by
  intro l
  induction l with
  | nil => intro a ha; cases ha
  | cons x xs ih =>
    intro a ha
    cases xs with
    | nil =>
      have hax : a = x := by simpa using ha
      subst hax
      simpa using occursIn_self_append a []
    | cons y ys =>
      rcases List.mem_cons.mp ha with hax | hmem
      · subst hax
        show occursIn a (a ++ sep ++ joinSep sep (y :: ys)) = true
        rw [List.append_assoc]
        exact occursIn_self_append a _
      · show occursIn a (x ++ sep ++ joinSep sep (y :: ys)) = true
        exact occursIn_append_right a _ _ (ih a hmem)

/-- C9 (amended): every error of resolve_interface (bandwidthmon.rs /
bandwidthmon2.rs) lists every currently available interface name in its
message; every error of find_matching_interface (bandwidthmon3.rs) either
lists every available name (the no-match errors, and vacuously the
empty-interface-set error) or is the Invalid pattern error produced when
Regex::new rejects the rewritten wildcard pattern, whose message carries the
compile-error text and no interface listing. -/
theorem notfound_lists_interfaces :
    (∀ (interfaces : List (List Char)) (pattern msg : List Char),
        resolve_interface interfaces pattern = Except.error msg →
        ∀ name ∈ interfaces, occursIn name msg = true)
  ∧ (∀ (compile : List Char → Except (List Char) (List Char → Bool))
        (interfaces : List (List Char)) (pattern msg : List Char),
        find_matching_interface compile interfaces pattern = Except.error msg →
        (∀ name ∈ interfaces, occursIn name msg = true)
        ∨ ∃ e, compile pattern = Except.error e
            ∧ msg = "Invalid pattern: ".data ++ e) := by
  constructor
  · intro interfaces pattern msg h name hname
    simp only [resolve_interface] at h
    split at h
    · cases h
    · split at h
      · injection h with hmsg
        subst hmsg
        exact occursIn_append_right name _ _
          (occursIn_joinSep ("\n".data) interfaces name hname)
      · split at h
        · cases h
        · cases h
  · intro compile interfaces pattern msg h
    cases interfaces with
    | nil => exact Or.inl (by intro name hname; cases hname)
    | cons first rest =>
      simp only [find_matching_interface] at h
      split at h
      · cases h
      · split at h
        · cases hc : compile pattern with
          | error e =>
            rw [hc] at h
            replace h : Except.error ("Invalid pattern: ".data ++ e) =
                (Except.error msg : Except (List Char) (List Char)) := h
            injection h with hmsg
            exact Or.inr ⟨e, rfl, hmsg.symm⟩
          | ok re =>
            rw [hc] at h
            replace h : (match (first :: rest).find? (fun iface => re iface) with
                | some iface => Except.ok iface
                | none => Except.error (findNoMatchMsg pattern (first :: rest))) =
                (Except.error msg : Except (List Char) (List Char)) := h
            cases hfind : (first :: rest).find? (fun iface => re iface) with
            | some i => rw [hfind] at h; cases h
            | none =>
              rw [hfind] at h
              injection h with hmsg
              subst hmsg
              refine Or.inl ?_
              intro name hname
              exact occursIn_append_right name _ _
                (occursIn_joinSep (", ".data) (first :: rest) name hname)
        · cases hfind : (first :: rest).find? (fun iface => lowerContains iface pattern) with
          | some i => rw [hfind] at h; cases h
          | none =>
            rw [hfind] at h
            injection h with hmsg
            subst hmsg
            refine Or.inl ?_
            intro name hname
            exact occursIn_append_right name _ _
              (occursIn_joinSep (", ".data) (first :: rest) name hname)

/-- Witness for C9 at concrete inputs: the pattern zzz against interfaces
eth0 and wlan0 produces the no-match error of resolve_interface, whose
message contains both names; the same pattern through
find_matching_interface produces its no-match error, whose message contains
the available name. -/
theorem notfound_lists_interfaces_witness :
    resolve_interface [("eth0".data), ("wlan0".data)] ("zzz".data) =
      Except.error (resolveNoMatchMsg ("zzz".data) [("eth0".data), ("wlan0".data)])
  ∧ occursIn ("eth0".data)
      (resolveNoMatchMsg ("zzz".data) [("eth0".data), ("wlan0".data)]) = true
  ∧ occursIn ("wlan0".data)
      (resolveNoMatchMsg ("zzz".data) [("eth0".data), ("wlan0".data)]) = true
  ∧ occursIn ("eth0".data) (findNoMatchMsg ("zzz".data) [("eth0".data)]) = true := by
  refine ⟨by decide, ?_, ?_, ?_⟩
  · exact notfound_lists_interfaces.1 [("eth0".data), ("wlan0".data)] ("zzz".data) _
      (by decide) ("eth0".data) (by decide)
  · exact notfound_lists_interfaces.1 [("eth0".data), ("wlan0".data)] ("zzz".data) _
      (by decide) ("wlan0".data) (by decide)
  · have hdisj := notfound_lists_interfaces.2 globEngine [("eth0".data)] ("zzz".data)
      (findNoMatchMsg ("zzz".data) [("eth0".data)]) (by decide)
    rcases hdisj with hall | ⟨e, he, _⟩
    · exact hall ("eth0".data) (by decide)
    · exact absurd he (by simp [globEngine])

/-- Counterexample for C9 as stated: the wildcard pattern [* matches no
available interface, yet resolution does not fail with a NotFound error
listing the available names; the rewrite produces the invalid regex
(?i)^[.*$, Regex::new rejects it, and find_matching_interface returns the
Invalid pattern error, whose message does not contain the available
interface name eth0. -/
theorem invalid_pattern_counterexample :
    find_matching_interface bracketStarEngine [("eth0".data)] ("[*".data) =
      Except.error
        ("Invalid pattern: regex parse error (unclosed character class)".data)
  ∧ occursIn ("eth0".data)
      ("Invalid pattern: regex parse error (unclosed character class)".data) = false := by
  refine ⟨by decide, by decide⟩

/-! ### C3: resolution priority order -/

lemma foldMinLen_spec (ms : List (List Char)) :
    ∀ m : List Char,
      (ms.foldl (fun acc y => if y.length < acc.length then y else acc) m) ∈ m :: ms
    ∧ ∀ y ∈ m :: ms,
        (ms.foldl (fun acc y => if y.length < acc.length then y else acc) m).length ≤
          y.length := by
  induction ms with
  | nil =>
    intro m
    constructor
    · simp
    · intro y hy
      rw [List.mem_singleton.mp hy]
      simp
  | cons z zs ih =>
    intro m
    obtain ⟨ih1, ih2⟩ := ih (if z.length < m.length then z else m)
    have hstep :
        (z :: zs).foldl (fun acc y => if y.length < acc.length then y else acc) m =
          zs.foldl (fun acc y => if y.length < acc.length then y else acc)
            (if z.length < m.length then z else m) := rfl
    constructor
    · rw [hstep]
      rcases List.mem_cons.mp ih1 with hhd | htl
      · rw [hhd]
        by_cases hzm : z.length < m.length
        · simp [hzm]
        · simp [hzm]
      · exact List.mem_cons_of_mem _ (List.mem_cons_of_mem _ htl)
    · intro y hy
      rw [hstep]
      have hhead : (zs.foldl (fun acc y => if y.length < acc.length then y else acc)
          (if z.length < m.length then z else m)).length ≤
          (if z.length < m.length then z else m).length :=
        ih2 _ (List.mem_cons_self _ _)
      rcases List.mem_cons.mp hy with hym | hy2
      · subst hym
        refine le_trans hhead ?_
        by_cases hzm : z.length < y.length
        · simp [hzm]; omega
        · simp [hzm]
      · rcases List.mem_cons.mp hy2 with hyz | hyzs
        · subst hyz
          refine le_trans hhead ?_
          by_cases hzm : y.length < m.length
          · simp [hzm]
          · simp [hzm]; omega
        · exact ih2 y (List.mem_cons_of_mem _ hyzs)

lemma find?_split {α : Type} (p : α → Bool) :
    ∀ (l : List α) (a : α), l.find? p = some a →
      p a = true ∧ ∃ pre post, l = pre ++ a :: post ∧ ∀ x ∈ pre, p x = false := by
  intro l
  induction l with
  | nil => intro a h; cases h
  | cons b t ih =>
    intro a h
    by_cases hb : p b = true
    · rw [List.find?_cons_of_pos _ hb] at h
      injection h with hab
      subst hab
      exact ⟨hb, [], t, rfl, by intro x hx; cases hx⟩
    · rw [List.find?_cons_of_neg _ (by simpa using hb)] at h
      obtain ⟨hp, pre, post, heq, hpre⟩ := ih a h
      refine ⟨hp, b :: pre, post, by rw [heq]; rfl, ?_⟩
      intro x hx
      rcases List.mem_cons.mp hx with hxb | hxpre
      · subst hxb; simpa using hb
      · exact hpre x hxpre

/-- C3 (amended): the repository has two interface resolvers with different
priority rules.  resolve_interface (bandwidthmon.rs / bandwidthmon2.rs)
returns a case-sensitive exact match with highest priority and otherwise
uses a case-insensitive substring match returning the unique match or, among
several, one of minimal name length (wildcards have no special meaning
there).  find_matching_interface (bandwidthmon3.rs) returns the first
interface for an empty pattern; a pattern containing * or ? is rewritten
(escaping only . ( ) and turning * into .* and ? into .) and compiled by the
external regex engine: a compile failure is surfaced as the Invalid pattern
error, and a compiled matcher selects the first interface in provider order
it fully matches (on the safe fragment of patterns free of further regex
metacharacters that matcher is the anchored case-insensitive glob
globMatch); otherwise the first case-insensitive substring match in
provider order is returned, with no exact-match priority and no
shortest-name tie-break. -/
theorem resolver_priority (interfaces : List (List Char)) (pattern : List Char) :
    (pattern ∈ interfaces → resolve_interface interfaces pattern = Except.ok pattern)
  ∧ (∀ r, pattern ∉ interfaces →
      resolve_interface interfaces pattern = Except.ok r →
      lowerContains r pattern = true
      ∧ ∀ m ∈ interfaces, lowerContains m pattern = true → r.length ≤ m.length)
  ∧ (∀ (compile : List Char → Except (List Char) (List Char → Bool)) first rest,
      interfaces = first :: rest → pattern = [] →
      find_matching_interface compile interfaces pattern = Except.ok first)
  ∧ (∀ (compile : List Char → Except (List Char) (List Char → Bool))
        (matcher : List Char → Bool) r,
      hasWildcard pattern = true →
      compile pattern = Except.ok matcher →
      find_matching_interface compile interfaces pattern = Except.ok r →
      matcher r = true
      ∧ ∃ pre post, interfaces = pre ++ r :: post ∧
          ∀ i ∈ pre, matcher i = false)
  ∧ (∀ (compile : List Char → Except (List Char) (List Char → Bool)) e,
      hasWildcard pattern = true → interfaces ≠ [] →
      compile pattern = Except.error e →
      find_matching_interface compile interfaces pattern =
        Except.error ("Invalid pattern: ".data ++ e))
  ∧ (∀ (compile : List Char → Except (List Char) (List Char → Bool)) r,
      pattern ≠ [] → hasWildcard pattern = false →
      find_matching_interface compile interfaces pattern = Except.ok r →
      lowerContains r pattern = true
      ∧ ∃ pre post, interfaces = pre ++ r :: post ∧
          ∀ i ∈ pre, lowerContains i pattern = false) := by
  refine ⟨?_, ?_, ?_, ?_, ?_, ?_⟩
  · intro hmem
    have hany : interfaces.any (fun name => name == pattern) = true :=
      List.any_eq_true.mpr ⟨pattern, hmem, beq_self_eq_true pattern⟩
    simp only [resolve_interface, if_pos hany]
  · intro r hnot hok
    have hany : ¬ (interfaces.any (fun name => name == pattern) = true) := by
      simp only [List.any_eq_true, beq_iff_eq]
      rintro ⟨x, hx, rfl⟩
      exact hnot hx
    simp only [resolve_interface, if_neg hany] at hok
    cases hfil : interfaces.filter (fun name => lowerContains name pattern) with
    | nil => rw [hfil] at hok; cases hok
    | cons m ms =>
      rw [hfil] at hok
      replace hok : (if ms = [] then Except.ok m
          else Except.ok
            (ms.foldl (fun acc y => if y.length < acc.length then y else acc) m)) =
          (Except.ok r : Except (List Char) (List Char)) := hok
      have hmemfil : ∀ y ∈ interfaces, lowerContains y pattern = true →
          y ∈ m :: ms := by
        intro y hy hpy
        rw [← hfil]
        exact List.mem_filter.mpr ⟨hy, hpy⟩
      have hfilmem : ∀ y ∈ m :: ms,
          y ∈ interfaces ∧ lowerContains y pattern = true := by
        intro y hy
        rw [← hfil] at hy
        exact List.mem_filter.mp hy
      by_cases hms : ms = []
      · rw [if_pos hms] at hok
        injection hok with hr
        subst hr
        subst hms
        refine ⟨(hfilmem _ (List.mem_singleton_self _)).2, ?_⟩
        intro y hy hpy
        rw [List.mem_singleton.mp (hmemfil y hy hpy)]
      · rw [if_neg hms] at hok
        injection hok with hr
        obtain ⟨hfm, hfb⟩ := foldMinLen_spec ms m
        rw [hr] at hfm hfb
        exact ⟨(hfilmem r hfm).2, fun y hy hpy => hfb y (hmemfil y hy hpy)⟩
  · intro compile first rest heq hpat
    subst heq
    subst hpat
    simp [find_matching_interface]
  · intro compile matcher r hwild hcomp hok
    cases interfaces with
    | nil => cases hok
    | cons f rest =>
      have hpat : ¬ (pattern = []) := by
        intro h
        subst h
        simp [hasWildcard, List.contains] at hwild
      simp only [find_matching_interface, if_neg hpat, if_pos hwild, hcomp] at hok
      cases hfind : (f :: rest).find? (fun iface => matcher iface) with
      | none => rw [hfind] at hok; cases hok
      | some i =>
        rw [hfind] at hok
        injection hok with hr
        subst hr
        obtain ⟨hp, pre, post, heq, hpre⟩ := find?_split _ _ _ hfind
        exact ⟨hp, pre, post, heq, hpre⟩
  · intro compile e hwild hne hcomp
    cases interfaces with
    | nil => exact absurd rfl hne
    | cons f rest =>
      have hpat : ¬ (pattern = []) := by
        intro h
        subst h
        simp [hasWildcard, List.contains] at hwild
      simp only [find_matching_interface, if_neg hpat, if_pos hwild, hcomp]
  · intro compile r hpat hwild hok
    cases interfaces with
    | nil => cases hok
    | cons f rest =>
      have hwild2 : ¬ (hasWildcard pattern = true) := by rw [hwild]; simp
      simp only [find_matching_interface, if_neg hpat, if_neg hwild2] at hok
      cases hfind : (f :: rest).find? (fun iface => lowerContains iface pattern) with
      | none => rw [hfind] at hok; cases hok
      | some i =>
        rw [hfind] at hok
        injection hok with hr
        subst hr
        obtain ⟨hp, pre, post, heq, hpre⟩ := find?_split _ _ _ hfind
        exact ⟨hp, pre, post, heq, hpre⟩

/-- Witness for C3 at concrete inputs: an exact match is returned by
resolve_interface; through the safe-fragment engine the wildcard pattern wl*
resolves to wlan0 and the returned interface satisfies the compiled
matcher. -/
theorem resolver_priority_witness :
    resolve_interface [("eth0".data), ("wlan0".data)] ("eth0".data) =
      Except.ok ("eth0".data)
  ∧ globMatch ("wl*".data) ("wlan0".data) = true :=
  ⟨(resolver_priority [("eth0".data), ("wlan0".data)] ("eth0".data)).1 (by decide),
   ((resolver_priority [("eth0".data), ("eth1".data), ("wlan0".data)]
      ("wl*".data)).2.2.2.1 globEngine (fun s => globMatch ("wl*".data) s)
      ("wlan0".data) (by decide) rfl (by decide)).1⟩

/-- Counterexample for C3 as stated: resolve_interface has no wildcard
stage, so the pattern wl* fails instead of resolving to wlan0; and
find_matching_interface has no exact-match priority, the exact name eth0
loses to the earlier substring match Xeth0 (the substring stage does not
involve the regex engine). -/
theorem resolver_priority_counterexample :
    resolve_interface [("eth0".data), ("eth1".data), ("wlan0".data)] ("wl*".data) ≠
      Except.ok ("wlan0".data)
  ∧ find_matching_interface globEngine [("Xeth0".data), ("eth0".data)] ("eth0".data) =
      Except.ok ("Xeth0".data)
  ∧ ("Xeth0".data) ≠ ("eth0".data) := by
  refine ⟨by decide, by decide, by decide⟩

/-! ### C6: the flat series -/

lemma plotColumn_flat (cv : List (List ℕ)) (x : ℕ) :
    plotColumn 3 5 1 cv x (F.fin 5) = cv := by
  have h1 : ((1 : ℚ) - (5 - 5) / 1) * ((3 : ℕ) : ℚ) = 3 := by norm_num
  have h2 : (⌊(3 : ℚ)⌋ : ℤ) = 3 := by norm_num
  simp only [plotColumn, h1, h2]
  norm_num
  have h3 : List.range' (Int.toNat 3 + 1) (3 - (Int.toNat 3 + 1)) = [] := by decide
  rw [h3, List.foldl_nil]

lemma foldl_plot_flat :
    ∀ (l : List (ℕ × F)), (∀ p ∈ l, p.2 = F.fin 5) →
      ∀ cv : List (List ℕ),
        l.foldl (fun cv p => plotColumn 3 5 1 cv p.1 p.2) cv = cv := by
  intro l
  induction l with
  | nil => intro _ cv; rfl
  | cons p t ih =>
    intro hall cv
    have hp := hall p (List.mem_cons_self p t)
    show t.foldl _ (plotColumn 3 5 1 cv p.1 p.2) = cv
    rw [hp, plotColumn_flat]
    exact ih (fun q hq => hall q (List.mem_cons_of_mem _ hq)) cv

lemma foldl_fmin_fin_rep (q : ℚ) :
    ∀ j : ℕ, (List.replicate j (F.fin q)).foldl fmin (F.fin q) = F.fin q := by
  intro j
  induction j with
  | zero => rfl
  | succ n ih =>
    show (List.replicate n (F.fin q)).foldl fmin (fmin (F.fin q) (F.fin q)) = _
    rw [show fmin (F.fin q) (F.fin q) = F.fin q by simp [fmin]]
    exact ih

lemma foldl_fmax_fin_rep (q : ℚ) :
    ∀ j : ℕ, (List.replicate j (F.fin q)).foldl fmax (F.fin q) = F.fin q := by
  intro j
  induction j with
  | zero => rfl
  | succ n ih =>
    show (List.replicate n (F.fin q)).foldl fmax (fmax (F.fin q) (F.fin q)) = _
    rw [show fmax (F.fin q) (F.fin q) = F.fin q by simp [fmax]]
    exact ih

lemma foldl_fmin_rep (q : ℚ) (k : ℕ) (hk : 1 ≤ k) :
    (List.replicate k (F.fin q)).foldl fmin F.inf = F.fin q := by
  obtain ⟨n, rfl⟩ : ∃ n, k = n + 1 := ⟨k - 1, by omega⟩
  exact foldl_fmin_fin_rep q n

lemma foldl_fmax_rep (q : ℚ) (k : ℕ) (hk : 1 ≤ k) :
    (List.replicate k (F.fin q)).foldl fmax F.ninf = F.fin q := by
  obtain ⟨n, rfl⟩ : ∃ n, k = n + 1 := ⟨k - 1, by omega⟩
  exact foldl_fmax_fin_rep q n

lemma enum_replicate_snd (k : ℕ) (a : F) :
    ∀ p ∈ (List.replicate k a).enum, p.2 = a := by
  intro p hp
  obtain ⟨i, x⟩ := p
  have hx := (List.mem_enumFrom hp).2.2
  simpa [List.getElem_replicate] using hx

/-- C6 (amended): rendering the flat series [5, 5, 5] with height 3 and any
positive width engages the degenerate-range fallback (range 1.0, no division
by zero) but leaves the whole canvas blank, bottom row included: every flat
value normalizes to the row index equal to the height, one below the lowest
canvas row, so no cell is written. -/
theorem flat_series_chart (w : ℕ) (hw : 0 < w) :
    render_chart (List.replicate 3 (F.fin 5)) 3 w =
      ChartResult.grid (List.replicate 3 (List.replicate w 0)) := by
  have hk1 : 1 ≤ 3 - (3 - w) := by omega
  have hdrop : (List.replicate 3 (F.fin 5)).drop ((List.replicate 3 (F.fin 5)).length - w) =
      List.replicate (3 - (3 - w)) (F.fin 5) := by
    rw [List.length_replicate, List.drop_replicate]
  have hne : List.replicate (3 - (3 - w)) (F.fin 5) ≠ [] := by
    intro hnil
    have := congrArg List.length hnil
    simp at this
    omega
  have hrange : (if |(F.fin (5 : ℚ)).toQ - (F.fin (5 : ℚ)).toQ| < eps then (1 : ℚ)
      else (F.fin (5 : ℚ)).toQ - (F.fin (5 : ℚ)).toQ) = 1 := by
    norm_num [F.toQ, eps]
  simp only [render_chart, hdrop, foldl_fmin_rep 5 _ hk1, foldl_fmax_rep 5 _ hk1]
  rw [if_neg (by simp [hw.ne.symm] : ¬((List.replicate 3 (F.fin 5) : List F) = [] ∨
      (3 : ℕ) = 0 ∨ w = 0))]
  rw [if_neg (by simpa using hne)]
  rw [if_neg (by simp [F.isFinite])]
  rw [hrange]
  simp only [F.toQ]
  rw [foldl_plot_flat _ (enum_replicate_snd _ _) _]

/-- Witness for C6 at a concrete width. -/
theorem flat_series_chart_witness :
    render_chart (List.replicate 3 (F.fin 5)) 3 4 =
      ChartResult.grid (List.replicate 3 (List.replicate 4 0)) :=
  flat_series_chart 4 (by norm_num)

/-- Counterexample for C6 as stated: on the flat series [5, 5, 5] with
height 3 and width 3 the bottom row of the rendered grid is not the fully
filled row of solid blocks. -/
theorem flat_series_bottom_counterexample :
    bottomRow (render_chart (List.replicate 3 (F.fin 5)) 3 3) ≠
      List.replicate 3 8 := by
  have hval : render_chart (List.replicate 3 (F.fin 5)) 3 3 =
      ChartResult.grid [[0, 0, 0], [0, 0, 0], [0, 0, 0]] := by
    norm_num [render_chart, plotColumn, fmin, fmax, F.isFinite, F.toQ, eps,
      List.replicate, List.enum]
    decide
  rw [hval]
  decide

/-! ### C7: non-finite values in the series -/

lemma isNan_false_of_ne (v : F) (hv : v ≠ F.nan) : v.isNan = false := by
  cases v with
  | nan => exact absurd rfl hv
  | inf => rfl
  | ninf => rfl
  | fin q => rfl

lemma foldl_filter_nan (op : F → F → F)
    (hop : ∀ a, a ≠ F.nan → op a F.nan = a)
    (hne : ∀ a b, a ≠ F.nan → b ≠ F.nan → op a b ≠ F.nan) :
    ∀ (l : List F) (a : F), a ≠ F.nan →
      l.foldl op a = (l.filter (fun v => !v.isNan)).foldl op a := by
  intro l
  induction l with
  | nil => intro a _; rfl
  | cons v t ih =>
    intro a ha
    by_cases hv : v = F.nan
    · subst hv
      show t.foldl op (op a F.nan) = ((F.nan :: t).filter (fun v => !v.isNan)).foldl op a
      rw [hop a ha]
      have hfil : (F.nan :: t).filter (fun v => !v.isNan) =
          t.filter (fun v => !v.isNan) := by
        simp [F.isNan]
      rw [hfil]
      exact ih a ha
    · show t.foldl op (op a v) = ((v :: t).filter (fun v => !v.isNan)).foldl op a
      have hfil : (v :: t).filter (fun v => !v.isNan) =
          v :: t.filter (fun v => !v.isNan) := by
        simp [isNan_false_of_ne v hv]
      rw [hfil]
      show _ = (t.filter (fun v => !v.isNan)).foldl op (op a v)
      exact ih (op a v) (hne a v ha hv)

lemma fmin_nan_right (a : F) (ha : a ≠ F.nan) : fmin a F.nan = a := by
  cases a with
  | nan => exact absurd rfl ha
  | inf => rfl
  | ninf => rfl
  | fin q => rfl

lemma fmax_nan_right (a : F) (ha : a ≠ F.nan) : fmax a F.nan = a := by
  cases a with
  | nan => exact absurd rfl ha
  | inf => rfl
  | ninf => rfl
  | fin q => rfl

lemma fmin_ne_nan (a b : F) (ha : a ≠ F.nan) (hb : b ≠ F.nan) :
    fmin a b ≠ F.nan := by
  cases a <;> cases b <;> simp_all [fmin]

lemma fmax_ne_nan (a b : F) (ha : a ≠ F.nan) (hb : b ≠ F.nan) :
    fmax a b ≠ F.nan := by
  cases a <;> cases b <;> simp_all [fmax]

lemma fmax_inf_right (a : F) : fmax a F.inf = F.inf := by
  cases a <;> rfl

lemma fmax_inf_left (b : F) : fmax F.inf b = F.inf := by
  cases b <;> rfl

lemma foldl_fmax_from_inf : ∀ l : List F, l.foldl fmax F.inf = F.inf := by
  intro l
  induction l with
  | nil => rfl
  | cons v t ih =>
    show t.foldl fmax (fmax F.inf v) = F.inf
    rw [fmax_inf_left]
    exact ih

lemma foldl_fmax_inf_mem : ∀ (l : List F) (a : F), F.inf ∈ l →
    l.foldl fmax a = F.inf := by
  intro l
  induction l with
  | nil => intro a ha; cases ha
  | cons v t ih =>
    intro a ha
    by_cases hv : v = F.inf
    · subst hv
      show t.foldl fmax (fmax a F.inf) = F.inf
      rw [fmax_inf_right]
      exact foldl_fmax_from_inf t
    · have hmem : F.inf ∈ t := by
        rcases List.mem_cons.mp ha with h1 | h2
        · exact absurd h1.symm hv
        · exact h2
      exact ih (fmax a v) hmem

lemma foldl_fmin_all_fin : ∀ (l : List F) (q : ℚ),
    (∀ v ∈ l, ∃ p, v = F.fin p) →
      ∃ p, l.foldl fmin (F.fin q) = F.fin p := by
  intro l
  induction l with
  | nil => intro q _; exact ⟨q, rfl⟩
  | cons v t ih =>
    intro q hall
    obtain ⟨p0, hp0⟩ := hall v (List.mem_cons_self v t)
    subst hp0
    show ∃ p, t.foldl fmin (fmin (F.fin q) (F.fin p0)) = F.fin p
    rw [show fmin (F.fin q) (F.fin p0) = F.fin (min q p0) from rfl]
    exact ih _ (fun u hu => hall u (List.mem_cons_of_mem _ hu))

lemma foldl_fmax_all_fin : ∀ (l : List F) (q : ℚ),
    (∀ v ∈ l, ∃ p, v = F.fin p) →
      ∃ p, l.foldl fmax (F.fin q) = F.fin p := by
  intro l
  induction l with
  | nil => intro q _; exact ⟨q, rfl⟩
  | cons v t ih =>
    intro q hall
    obtain ⟨p0, hp0⟩ := hall v (List.mem_cons_self v t)
    subst hp0
    show ∃ p, t.foldl fmax (fmax (F.fin q) (F.fin p0)) = F.fin p
    rw [show fmax (F.fin q) (F.fin p0) = F.fin (max q p0) from rfl]
    exact ih _ (fun u hu => hall u (List.mem_cons_of_mem _ hu))

lemma foldl_fmin_fin_of_mixed (l : List F)
    (hall : ∀ v ∈ l, v = F.nan ∨ ∃ q, v = F.fin q)
    (hfin : ∃ q, F.fin q ∈ l) :
    ∃ p, l.foldl fmin F.inf = F.fin p := by
  obtain ⟨q0, hq0⟩ := hfin
  rw [foldl_filter_nan fmin fmin_nan_right fmin_ne_nan l F.inf (by simp)]
  have hallfin : ∀ v ∈ l.filter (fun v => !v.isNan), ∃ p, v = F.fin p := by
    intro v hv
    obtain ⟨hvl, hvb⟩ := List.mem_filter.mp hv
    rcases hall v hvl with hnan | hfin2
    · subst hnan; simp [F.isNan] at hvb
    · exact hfin2
  have hmem : F.fin q0 ∈ l.filter (fun v => !v.isNan) :=
    List.mem_filter.mpr ⟨hq0, by simp [F.isNan]⟩
  cases hfil : l.filter (fun v => !v.isNan) with
  | nil => rw [hfil] at hmem; cases hmem
  | cons v t =>
    rw [hfil] at hallfin
    obtain ⟨p0, hp0⟩ := hallfin v (List.mem_cons_self v t)
    subst hp0
    show ∃ p, t.foldl fmin (fmin F.inf (F.fin p0)) = F.fin p
    rw [show fmin F.inf (F.fin p0) = F.fin p0 from rfl]
    exact foldl_fmin_all_fin t p0 (fun u hu => hallfin u (List.mem_cons_of_mem _ hu))

lemma foldl_fmax_fin_of_mixed (l : List F)
    (hall : ∀ v ∈ l, v = F.nan ∨ ∃ q, v = F.fin q)
    (hfin : ∃ q, F.fin q ∈ l) :
    ∃ p, l.foldl fmax F.ninf = F.fin p := by
  obtain ⟨q0, hq0⟩ := hfin
  rw [foldl_filter_nan fmax fmax_nan_right fmax_ne_nan l F.ninf (by simp)]
  have hallfin : ∀ v ∈ l.filter (fun v => !v.isNan), ∃ p, v = F.fin p := by
    intro v hv
    obtain ⟨hvl, hvb⟩ := List.mem_filter.mp hv
    rcases hall v hvl with hnan | hfin2
    · subst hnan; simp [F.isNan] at hvb
    · exact hfin2
  have hmem : F.fin q0 ∈ l.filter (fun v => !v.isNan) :=
    List.mem_filter.mpr ⟨hq0, by simp [F.isNan]⟩
  cases hfil : l.filter (fun v => !v.isNan) with
  | nil => rw [hfil] at hmem; cases hmem
  | cons v t =>
    rw [hfil] at hallfin
    obtain ⟨p0, hp0⟩ := hallfin v (List.mem_cons_self v t)
    subst hp0
    show ∃ p, t.foldl fmax (fmax F.ninf (F.fin p0)) = F.fin p
    rw [show fmax F.ninf (F.fin p0) = F.fin p0 from rfl]
    exact foldl_fmax_all_fin t p0 (fun u hu => hallfin u (List.mem_cons_of_mem _ hu))

/-- C7 (amended): NaN values in the series are skipped by the renderer (the
column update is the identity on the canvas) and do not corrupt the min/max
folds, which behave as if the NaN entries were removed (Rust f64::min and
f64::max return the non-NaN operand); a series of NaN and finite values with
at least one finite value still renders to a grid.  A series that contains
positive infinity, however, makes the max fold infinite, and render_chart
returns the "Invalid data" outcome instead of a chart. -/
theorem nonfinite_chart (data : List F) (h w : ℕ) :
    (∀ (min_val range : ℚ) (cv : List (List ℕ)) (x : ℕ),
        plotColumn h min_val range cv x F.nan = cv)
  ∧ (∀ a : F, a ≠ F.nan →
        data.foldl fmin a = (data.filter (fun v => !v.isNan)).foldl fmin a)
  ∧ (∀ a : F, a ≠ F.nan →
        data.foldl fmax a = (data.filter (fun v => !v.isNan)).foldl fmax a)
  ∧ ((∀ v ∈ data, v = F.nan ∨ ∃ q, v = F.fin q) → (∃ q, F.fin q ∈ data) →
        data.length ≤ w → h ≠ 0 → w ≠ 0 →
        ∃ rows, render_chart data h w = ChartResult.grid rows)
  ∧ (F.inf ∈ data → data.length ≤ w → h ≠ 0 → w ≠ 0 →
        render_chart data h w = ChartResult.invalidData) := by
  refine ⟨fun _ _ cv _ => rfl,
    fun a ha => foldl_filter_nan fmin fmin_nan_right fmin_ne_nan data a ha,
    fun a ha => foldl_filter_nan fmax fmax_nan_right fmax_ne_nan data a ha,
    ?_, ?_⟩
  · intro hall hfin hlen hh hw
    obtain ⟨q0, hq0⟩ := hfin
    have hne : data ≠ [] := by
      intro hnil; rw [hnil] at hq0; cases hq0
    have hdrop : data.drop (data.length - w) = data := by
      rw [Nat.sub_eq_zero_of_le hlen, List.drop_zero]
    obtain ⟨pa, hpa⟩ := foldl_fmin_fin_of_mixed data hall ⟨q0, hq0⟩
    obtain ⟨pb, hpb⟩ := foldl_fmax_fin_of_mixed data hall ⟨q0, hq0⟩
    have hc1 : ¬(data = [] ∨ h = 0 ∨ w = 0) := by simp [hne, hh, hw]
    have hc2 : ¬¬((F.fin pa).isFinite = true ∧ (F.fin pb).isFinite = true) := by
      simp [F.isFinite]
    simp only [render_chart, hdrop, hpa, hpb, if_neg hc1, if_neg hne, if_neg hc2]
    exact ⟨_, rfl⟩
  · intro hinf hlen hh hw
    have hne : data ≠ [] := by
      intro hnil; rw [hnil] at hinf; cases hinf
    have hdrop : data.drop (data.length - w) = data := by
      rw [Nat.sub_eq_zero_of_le hlen, List.drop_zero]
    have hmax : data.foldl fmax F.ninf = F.inf := foldl_fmax_inf_mem data F.ninf hinf
    simp only [render_chart, hdrop, hmax]
    rw [if_neg (by simp [hne, hh, hw] : ¬(data = [] ∨ h = 0 ∨ w = 0))]
    rw [if_neg hne]
    rw [if_pos (by simp [F.isFinite])]

/-- Witness for C7 at concrete inputs: a NaN next to a finite value still
renders a grid, while an infinity gives the "Invalid data" outcome. -/
theorem nonfinite_chart_witness :
    (∃ rows, render_chart [F.fin 1, F.nan] 1 2 = ChartResult.grid rows)
  ∧ render_chart [F.fin 1, F.inf] 1 2 = ChartResult.invalidData :=
  ⟨(nonfinite_chart [F.fin 1, F.nan] 1 2).2.2.2.1
      (by
        intro v hv
        rcases List.mem_cons.mp hv with h1 | h2
        · exact Or.inr ⟨1, h1⟩
        · exact Or.inl (List.mem_singleton.mp h2))
      ⟨1, List.mem_cons_self _ _⟩ (by norm_num) (by norm_num) (by norm_num),
   (nonfinite_chart [F.fin 1, F.inf] 1 2).2.2.2.2
      (List.mem_cons_of_mem _ (List.mem_singleton_self _))
      (by norm_num) (by norm_num) (by norm_num)⟩

/-- Counterexample for C7 as stated: the series [1, +infinity] is not
rendered with the infinite column skipped; render_chart returns the
"Invalid data" outcome, not a chart grid. -/
theorem infinity_invalid_data_counterexample :
    ¬ ∃ rows, render_chart [F.fin 1, F.inf] 1 2 = ChartResult.grid rows := by
  have hval : render_chart [F.fin 1, F.inf] 1 2 = ChartResult.invalidData := by
    norm_num [render_chart, fmin, fmax, F.isFinite]
    decide
  rintro ⟨rows, hr⟩
  rw [hval] at hr
  cases hr

end Bandwidthmon
